import Mathlib

/-!
Shallow embedding of `0x02-redis_basic/exercise.py`.

The module wraps a Redis connection in a `Cache` class whose `store` method is
decorated with `count_calls` (INCR on the method's qualified name) and
`call_history` (RPUSH of the stringified positional arguments and of the
returned key).  A `replay` helper prints the recorded history.

Modelling choices, stated once here:
* Python `bytes` and the byte strings held by Redis are modelled as Lean
  `String`; UTF-8 encoding and decoding are therefore the identity (all the
  values the program manipulates are valid UTF-8 in the model).
* Python `float` values are represented by their `repr` string, since the
  program only ever serializes them (`vreal` below carries that string).
* Redis key-value state is an association list from key to either a byte
  string or a list of byte strings; each Redis command used by the program
  (SET / GET / INCR / EXISTS / RPUSH / LRANGE 0 -1 / FLUSHDB) is a function
  on that state, raising the same errors the real commands raise
  (WRONGTYPE, "value is not an integer", overflow past 2^63 - 1).
* `uuid4()` is an oracle: the generated identifier is an explicit argument
  of `Cache.store`; freshness is a hypothesis where a claim needs it.
* Side effects are recorded in an explicit trace of `Event`s, in the order
  the program issues the corresponding Redis commands.
-/

/-- Byte strings (Python `bytes` and Redis values) modelled as Lean strings. -/
abbrev Bytes := String

/-- The ASCII digit character of a value below ten. -/
def digitChar (n : Nat) : Char := Char.ofNat (48 + n)

/-- The numeric value of an ASCII digit character. -/
def digitVal (c : Char) : Nat := c.toNat - 48

/-- Whether a character is an ASCII decimal digit. -/
def isDigitChar (c : Char) : Bool := 48 ≤ c.toNat && c.toNat ≤ 57

/-- Fuelled helper for `natDigits`; any fuel above the argument suffices. -/
def natDigitsGo : Nat → Nat → List Char
  | 0, _ => []
  | fuel + 1, n =>
    if n < 10 then [digitChar n]
    else natDigitsGo fuel (n / 10) ++ [digitChar (n % 10)]

/-- Decimal digits of a natural number, most significant first. -/
def natDigits (n : Nat) : List Char := natDigitsGo (n + 1) n

/-- Python `str`/`repr` of an `int`, which is also the decimal form Redis
stores after `INCR`. -/
def intRepr : Int → String
  | Int.ofNat n => String.mk (natDigits n)
  | Int.negSucc m => String.mk (Char.ofNat 45 :: natDigits (m + 1))

/-- Whether a byte is ASCII whitespace, the class `int(bytes)` strips. -/
def isPyWs (c : Char) : Bool := c.toNat = 32 || (9 ≤ c.toNat && c.toNat ≤ 13)

/-- Strip leading and trailing ASCII whitespace, as `int(bytes)` does. -/
def stripWsL (l : List Char) : List Char :=
  ((l.dropWhile isPyWs).reverse.dropWhile isPyWs).reverse

/-- Digit-run parser of Python `int`: grammar `digit+ (_ digit+)*`.  The
accumulator carries the value so far; the flag records whether the previous
character was a digit (so an underscore is legal and the run may end). -/
def pyDigitsGo : List Char → Nat → Bool → Option Nat
  | [], acc, seen => if seen then some acc else none
  | c :: rest, acc, seen =>
    if isDigitChar c then pyDigitsGo rest (acc * 10 + digitVal c) true
    else if c = Char.ofNat 95 && seen then pyDigitsGo rest acc false
    else none

/-- Python `int(x)` on bytes: strip ASCII whitespace, optional sign, then a
digit run with optional single underscores between digits.  `none` models the
`ValueError` the builtin raises on anything else. -/
def pyIntParse (s : String) : Option Int :=
  match stripWsL s.data with
  | [] => none
  | c :: rest =>
    if c = Char.ofNat 43 then (pyDigitsGo rest 0 false).map Int.ofNat
    else if c = Char.ofNat 45 then
      (pyDigitsGo rest 0 false).map (fun n => -(n : Int))
    else (pyDigitsGo (c :: rest) 0 false).map Int.ofNat

/-- Digit-run parser of Redis `string2ll`: consume decimal digits into the
accumulator, rejecting any other character. -/
def redisDigitsGo : List Char → Nat → Option Nat
  | [], acc => some acc
  | c :: rest, acc =>
    if isDigitChar c then redisDigitsGo rest (acc * 10 + digitVal c) else none

/-- Positive part of Redis `string2ll`: a first digit in 1..9 followed by
digits (leading zeros rejected). -/
def redisPosDigits : List Char → Option Nat
  | [] => none
  | c :: rest =>
    if 49 ≤ c.toNat && c.toNat ≤ 57 then redisDigitsGo rest (digitVal c)
    else none

/-- Largest signed 64-bit integer, the bound Redis integers live under. -/
def maxI64 : Nat := 2 ^ 63 - 1

/-- Redis `string2ll`: `"0"` alone, or an optional minus sign followed by a
digit string without leading zeros, within the signed 64-bit range. -/
def redisParseInt (s : String) : Option Int :=
  if s.data = [digitChar 0] then some 0
  else
    match s.data with
    | [] => none
    | c :: rest =>
      if c = Char.ofNat 45 then
        match redisPosDigits rest with
        | some n => if n ≤ 2 ^ 63 then some (-(n : Int)) else none
        | none => none
      else
        match redisPosDigits (c :: rest) with
        | some n => if n ≤ maxI64 then some (n : Int) else none
        | none => none

/-- A Redis value: a byte string or a list of byte strings. -/
inductive RVal
  | str (s : Bytes)
  | list (l : List Bytes)
  deriving DecidableEq

/-- The Redis database: an association list from key to value. -/
abbrev RedisState := List (String × RVal)

/-- Look a key up in the database. -/
def lookupDb : RedisState → String → Option RVal
  | [], _ => none
  | (k', v') :: rest, k => if k' = k then some v' else lookupDb rest k

/-- Replace the binding of a key, or append a new binding. -/
def setKeyDb : RedisState → String → RVal → RedisState
  | [], k, v => [(k, v)]
  | (k', v') :: rest, k, v =>
    if k' = k then (k, v) :: rest else (k', v') :: setKeyDb rest k v

/-- Errors surfaced by the embedded operations. -/
inductive Err
  /-- Redis WRONGTYPE: a command hit a key holding the other kind of value. -/
  | wrongType
  /-- Redis "value is not an integer or out of range" on INCR. -/
  | notInteger
  /-- Redis "increment or decrement would overflow" on INCR. -/
  | overflowInt
  /-- Python AttributeError (missing attribute, e.g. `None.decode`). -/
  | attrError
  /-- Python TypeError (e.g. `int(None)`). -/
  | typeError
  /-- Python ValueError from `int()` on unparseable bytes; the spec's
  FormatError. -/
  | formatError
  deriving DecidableEq

/-- Redis SET: bind the key to a byte string, overwriting any previous value. -/
def redisSet (st : RedisState) (k : String) (v : Bytes) : RedisState :=
  setKeyDb st k (RVal.str v)

/-- Redis GET: the byte string under the key, `none` when absent, WRONGTYPE on
a list key. -/
def redisGetCmd (st : RedisState) (k : String) : Except Err (Option Bytes) :=
  match lookupDb st k with
  | none => Except.ok none
  | some (RVal.str s) => Except.ok (some s)
  | some (RVal.list _) => Except.error Err.wrongType

/-- Redis EXISTS as a boolean. -/
def redisExistsB (st : RedisState) (k : String) : Bool :=
  (lookupDb st k).isSome

/-- Redis INCR: an absent key becomes 1; a string key is parsed with
`string2ll` and incremented, erroring on unparseable values and on overflow
past `maxI64`; a list key is WRONGTYPE. -/
def redisIncr (st : RedisState) (k : String) : Except Err (RedisState × Int) :=
  match lookupDb st k with
  | none => Except.ok (redisSet st k (intRepr 1), 1)
  | some (RVal.str s) =>
    match redisParseInt s with
    | some n =>
      if n + 1 ≤ (maxI64 : Int) then
        Except.ok (redisSet st k (intRepr (n + 1)), n + 1)
      else Except.error Err.overflowInt
    | none => Except.error Err.notInteger
  | some (RVal.list _) => Except.error Err.wrongType

/-- Redis RPUSH: append to the list under the key, creating it when absent;
WRONGTYPE on a string key. -/
def redisRpush (st : RedisState) (k : String) (v : Bytes) :
    Except Err RedisState :=
  match lookupDb st k with
  | none => Except.ok (setKeyDb st k (RVal.list [v]))
  | some (RVal.list l) => Except.ok (setKeyDb st k (RVal.list (l ++ [v])))
  | some (RVal.str _) => Except.error Err.wrongType

/-- Redis LRANGE key 0 -1: the whole list, `[]` when absent, WRONGTYPE on a
string key. -/
def redisLrangeAll (st : RedisState) (k : String) : Except Err (List Bytes) :=
  match lookupDb st k with
  | none => Except.ok []
  | some (RVal.list l) => Except.ok l
  | some (RVal.str _) => Except.error Err.wrongType

/-- Redis FLUSHDB: remove every key. -/
def redisFlushdb (_st : RedisState) : RedisState := []

/-- A scalar the program may store: Python `str`, `bytes`, `int`, or `float`
(the latter carried by its `repr` string, see the module comment). -/
inductive Value
  | vstr (s : String)
  | vbytes (b : Bytes)
  | vint (n : Int)
  | vreal (r : String)
  deriving DecidableEq

/-- How the Redis client encodes a scalar to bytes before sending it:
strings are UTF-8 encoded (identity in the model), bytes pass through,
`int` and `float` are sent as their `repr`. -/
def toBytes : Value → Bytes
  | Value.vstr s => s
  | Value.vbytes b => b
  | Value.vint n => intRepr n
  | Value.vreal r => r

/-- The single-quote character. -/
def sqChar : Char := Char.ofNat 39

/-- The double-quote character. -/
def dqChar : Char := Char.ofNat 34

/-- Escape a character for Python string `repr` with quote `q`: backslash and
the quote character gain a backslash (non-printable escapes are not modelled;
the values in play are printable). -/
def pyEscape (q : Char) (c : Char) : List Char :=
  if c = Char.ofNat 92 then [Char.ofNat 92, Char.ofNat 92]
  else if c = q then [Char.ofNat 92, q]
  else [c]

/-- Python `repr` of a `str`: single-quoted, switching to double quotes when
the text contains a single quote but no double quote. -/
def pyReprStr (s : String) : String :=
  let q :=
    if s.data.contains sqChar && !(s.data.contains dqChar) then dqChar
    else sqChar
  String.mk (q :: (s.data.map (pyEscape q)).flatten ++ [q])

/-- Python `repr` of a scalar, as it appears inside `str(args)`. -/
def pyRepr : Value → String
  | Value.vstr s => pyReprStr s
  | Value.vbytes b => "b" ++ pyReprStr b
  | Value.vint n => intRepr n
  | Value.vreal r => r

/-- `str(args)` for the one-element positional-argument tuple of `store`:
`"(" + repr(data) + ",)"`. -/
def argsStr (v : Value) : String := "(" ++ pyRepr v ++ ",)"

/-- `str`/`format` of a `bytes` value, which Python renders as its repr
`b'...'`; this is how `replay` prints recorded outputs. -/
def pyFormatBytes (b : Bytes) : String := "b" ++ pyReprStr b

/-- One Redis command issued as a side effect, in program order. -/
inductive Event
  | incr (k : String)
  | set (k : String) (v : Bytes)
  | rpush (k : String) (v : Bytes)
  deriving DecidableEq

/-- The `_redis` attribute of a `Cache` object: a genuine `Redis` instance, a
duck-typed non-`Redis` object that still answers the store commands (`mock`),
or something that answers none of them (`noneH`, e.g. `None`). -/
inductive Handle
  | redis (st : RedisState)
  | mock (st : RedisState)
  | noneH
  deriving DecidableEq

/-- Python `isinstance(self._redis, Redis)`, the guard both decorators use. -/
def isRedisInstance : Handle → Bool
  | Handle.redis _ => true
  | _ => false

/-- The type of the (instrumented or raw) `store` operation: from a handle, a
generated identifier and a value to a new handle, the returned key and the
trace of Redis commands issued. -/
abbrev StoreFn := Handle → String → Value → Except Err (Handle × String × List Event)

/-- The undecorated body of `Cache.store`: `data_key = str(uuid4());
self._redis.set(data_key, data); return data_key`.  On a `noneH` handle the
attribute access `self._redis.set` raises AttributeError. -/
def storeBody : StoreFn := fun h data_key data =>
  match h with
  | Handle.redis st =>
    Except.ok (Handle.redis (redisSet st data_key (toBytes data)), data_key,
      [Event.set data_key (toBytes data)])
  | Handle.mock st =>
    Except.ok (Handle.mock (redisSet st data_key (toBytes data)), data_key,
      [Event.set data_key (toBytes data)])
  | Handle.noneH => Except.error Err.attrError

/-- The `count_calls` decorator: when `self._redis` is a `Redis` instance,
INCR the counter keyed by the method's qualified name, then invoke the wrapped
method; otherwise invoke it directly. -/
def count_calls (name : String) (method : StoreFn) : StoreFn := fun h uuid data =>
  match h with
  | Handle.redis st =>
    match redisIncr st name with
    | Except.error e => Except.error e
    | Except.ok (st', _) =>
      match method (Handle.redis st') uuid data with
      | Except.error e => Except.error e
      | Except.ok (h', out, evs) => Except.ok (h', out, Event.incr name :: evs)
  | _ => method h uuid data

/-- The `call_history` decorator: invoke the wrapped method first; then, when
`self._redis` is a `Redis` instance, RPUSH `str(args)` onto `name:inputs` and
the returned value onto `name:outputs`. -/
def call_history (name : String) (method : StoreFn) : StoreFn := fun h uuid data =>
  let input_key := name ++ ":inputs"
  let output_key := name ++ ":outputs"
  match method h uuid data with
  | Except.error e => Except.error e
  | Except.ok (h1, output, evs) =>
    match h1 with
    | Handle.redis st =>
      match redisRpush st input_key (argsStr data) with
      | Except.error e => Except.error e
      | Except.ok st2 =>
        match redisRpush st2 output_key output with
        | Except.error e => Except.error e
        | Except.ok st3 =>
          Except.ok (Handle.redis st3, output,
            evs ++ [Event.rpush input_key (argsStr data),
                    Event.rpush output_key output])
    | _ => Except.ok (h1, output, evs)

/-- `Cache.store`, with the decorator stack of the source:
`@count_calls` over `@call_history` over the raw body, at the qualified name
`"Cache.store"`. -/
def Cache.store : StoreFn :=
  count_calls "Cache.store" (call_history "Cache.store" storeBody)

/-- Modelled from the spec: the side-effect order §4.2 / claim C2 states for
one `store(value)` call — (a) INCR the counter, (b) RPUSH the arguments onto
the input history, (c) SET the value under the fresh identifier, (d) RPUSH
the identifier onto the output history. -/
def specOrderTrace (uuid : String) (v : Value) : List Event :=
  [Event.incr "Cache.store",
   Event.rpush "Cache.store:inputs" (argsStr v),
   Event.set uuid (toBytes v),
   Event.rpush "Cache.store:outputs" uuid]

/-- A Python value `Cache.get` and its variants may produce. -/
inductive PyVal
  | pbytes (b : Bytes)
  | pstr (s : String)
  | pint (n : Int)
  | pnone
  deriving DecidableEq

/-- `Cache.get(key, fn)`: fetch raw bytes (`pnone` for an absent key) and
return `fn(data) if fn else data`; the conversion is applied even to the
absent value. -/
def Cache.get (h : Handle) (key : String)
    (fn : Option (PyVal → Except Err PyVal)) : Except Err PyVal :=
  match h with
  | Handle.noneH => Except.error Err.attrError
  | Handle.redis st | Handle.mock st =>
    match redisGetCmd st key with
    | Except.error e => Except.error e
    | Except.ok d =>
      let data := match d with
        | none => PyVal.pnone
        | some b => PyVal.pbytes b
      match fn with
      | none => Except.ok data
      | some f => f data

/-- The conversion `lambda x: x.decode('utf-8')` of `get_str`: decoding is the
identity on the modelled bytes; `None` has no `.decode`, an AttributeError. -/
def decodeUtf8Fn : PyVal → Except Err PyVal
  | PyVal.pbytes b => Except.ok (PyVal.pstr b)
  | _ => Except.error Err.attrError

/-- The conversion `lambda x: int(x)` of `get_int`: parse bytes as a Python
int (ValueError → `formatError` when unparseable); `int(None)` is a
TypeError. -/
def toIntFn : PyVal → Except Err PyVal
  | PyVal.pbytes b =>
    match pyIntParse b with
    | some n => Except.ok (PyVal.pint n)
    | none => Except.error Err.formatError
  | PyVal.pstr s =>
    match pyIntParse s with
    | some n => Except.ok (PyVal.pint n)
    | none => Except.error Err.formatError
  | PyVal.pint n => Except.ok (PyVal.pint n)
  | PyVal.pnone => Except.error Err.typeError

/-- `Cache.get_str`. -/
def Cache.get_str (h : Handle) (key : String) : Except Err PyVal :=
  Cache.get h key (some decodeUtf8Fn)

/-- `Cache.get_int`. -/
def Cache.get_int (h : Handle) (key : String) : Except Err PyVal :=
  Cache.get h key (some toIntFn)

/-- `Cache.__init__`: connect to the store (whose current contents are `st0`)
and `flushdb(True)` synchronously; connection success is assumed (failure
would be a ConnectionError outside this model). -/
def Cache.initState (st0 : RedisState) : Handle :=
  Handle.redis (redisFlushdb st0)

/-- Iterate `Cache.store` over a list of (generated identifier, value) pairs,
collecting the returned keys. -/
def Cache.storeN : Handle → List (String × Value) → Except Err (Handle × List String)
  | h, [] => Except.ok (h, [])
  | h, (u, v) :: rest =>
    match Cache.store h u v with
    | Except.error e => Except.error e
    | Except.ok (h', id, _) =>
      match Cache.storeN h' rest with
      | Except.error e => Except.error e
      | Except.ok (h'', ids) => Except.ok (h'', id :: ids)

/-- The argument of `replay`: `None` or an unbound plain function (no
`__self__`), or a method bound to a `Cache` object whose `_redis` attribute is
the given handle (`noneH` also covers a missing `_redis` attribute, which
`getattr(..., None)` turns into `None`). -/
inductive MethodRef
  | noneRef
  | plainFn (name : String)
  | bound (name : String) (h : Handle)

/-- One history line `replay` prints:
`"<name>(*<decoded input>) -> <output bytes repr>"`. -/
def replayLine (name : String) (inp out : Bytes) : String :=
  name ++ "(*" ++ inp ++ ") -> " ++ pyFormatBytes out

/-- The header line `replay` prints. -/
def replayHeader (name : String) (count : Int) : String :=
  name ++ " was called " ++ intRepr count ++ " times:"

/-- `replay(fn)`: the list of lines printed to standard output, paired with
the error raised, if any (the lines printed before the error remain).  Guard
clauses: `None` or an unbound argument, a non-`Redis` `_redis` attribute, or
a missing one, all return printing nothing.  Otherwise: read the counter
(`0` when the key does not exist, `int(get(...))` when it does), print the
header, read both history lists in full and print one line per `zip`-pair. -/
def replay : MethodRef → List String × Option Err
  | MethodRef.noneRef => ([], none)
  | MethodRef.plainFn _ => ([], none)
  | MethodRef.bound _ (Handle.mock _) => ([], none)
  | MethodRef.bound _ Handle.noneH => ([], none)
  | MethodRef.bound name (Handle.redis st) =>
    let countE : Except Err Int :=
      if redisExistsB st name then
        match redisGetCmd st name with
        | Except.error e => Except.error e
        | Except.ok none => Except.error Err.typeError
        | Except.ok (some b) =>
          match pyIntParse b with
          | some n => Except.ok n
          | none => Except.error Err.formatError
      else Except.ok 0
    match countE with
    | Except.error e => ([], some e)
    | Except.ok count =>
      let header := replayHeader name count
      match redisLrangeAll st (name ++ ":inputs") with
      | Except.error e => ([header], some e)
      | Except.ok ins =>
        match redisLrangeAll st (name ++ ":outputs") with
        | Except.error e => ([header], some e)
        | Except.ok outs =>
          (header :: (List.zip ins outs).map (fun p => replayLine name p.1 p.2),
           none)

/-- The observable value of a call counter: the stored decimal bytes read as
a Python int, `0` for an absent or unreadable key (how `replay` treats the
counter). -/
def counterValue (st : RedisState) (k : String) : Int :=
  match lookupDb st k with
  | some (RVal.str s) => (pyIntParse s).getD 0
  | _ => 0

/-- The observable contents of a history list: the stored list, `[]` when the
key is absent or not a list. -/
def histList (st : RedisState) (k : String) : List Bytes :=
  match lookupDb st k with
  | some (RVal.list l) => l
  | _ => []

/-- The counter key's raw contents after `k` recorded calls: absent at zero,
otherwise the decimal bytes. -/
def counterRep (k : Nat) : Option RVal :=
  if k = 0 then none else some (RVal.str (intRepr (k : Int)))

/-- A history key's raw contents holding the list `l`: absent when empty
(RPUSH creates the key on first use). -/
def listRep (l : List Bytes) : Option RVal :=
  if l = [] then none else some (RVal.list l)

/-- Fold a digit list onto an accumulator in base 10 (the value both digit-run
parsers compute). -/
def digitsFold (acc : Nat) (l : List Char) : Nat :=
  l.foldl (fun a c => a * 10 + digitVal c) acc

theorem natDigitsGo_fuel (n : Nat) (f1 f2 : Nat) (h1 : n < f1) (h2 : n < f2) :
    natDigitsGo f1 n = natDigitsGo f2 n := by
  induction n using Nat.strong_induction_on generalizing f1 f2 with
  | _ n ih =>
    cases f1 with
    | zero => omega
    | succ g1 =>
      cases f2 with
      | zero => omega
      | succ g2 =>
        simp only [natDigitsGo]
        by_cases h : n < 10
        · simp [h]
        · simp only [if_neg h]
          have hd : n / 10 < n := Nat.div_lt_self (by omega) (by omega)
          rw [ih (n / 10) hd g1 g2 (by omega) (by omega)]

theorem natDigits_eq (n : Nat) :
    natDigits n = if n < 10 then [digitChar n]
      else natDigits (n / 10) ++ [digitChar (n % 10)] := by
  unfold natDigits
  simp only [natDigitsGo]
  by_cases h : n < 10
  · simp [h]
  · simp only [if_neg h]
    have hd : n / 10 < n := Nat.div_lt_self (by omega) (by omega)
    rw [natDigitsGo_fuel (n / 10) n (n / 10 + 1) (by omega) (by omega)]
    simp only [natDigitsGo]

theorem lookupDb_setKeyDb_self (st : RedisState) (k : String) (v : RVal) :
    lookupDb (setKeyDb st k v) k = some v := by
  induction st with
  | nil => simp [setKeyDb, lookupDb]
  | cons p rest ih =>
    obtain ⟨k', v'⟩ := p
    by_cases h : k' = k
    · simp [setKeyDb, lookupDb, h]
    · simp [setKeyDb, lookupDb, h, ih]

theorem lookupDb_setKeyDb_ne (st : RedisState) (k k' : String) (v : RVal)
    (h : k' ≠ k) : lookupDb (setKeyDb st k v) k' = lookupDb st k' := by
  have hkk : ¬k = k' := fun e => h (Eq.symm e)
  induction st with
  | nil => simp only [setKeyDb, lookupDb, if_neg hkk]
  | cons p rest ih =>
    obtain ⟨a, b⟩ := p
    by_cases ha : a = k
    · subst ha
      simp only [setKeyDb, if_pos rfl, lookupDb, if_neg hkk]
    · simp only [setKeyDb, if_neg ha, lookupDb, ih]

theorem redisRpush_listRep (st : RedisState) (k : String) (l : List Bytes)
    (v : Bytes) (h : lookupDb st k = listRep l) :
    redisRpush st k v = Except.ok (setKeyDb st k (RVal.list (l ++ [v]))) := by
  unfold redisRpush
  rw [h]
  unfold listRep
  by_cases hl : l = []
  · subst hl
    simp
  · simp [hl]

theorem redisRpush_preserves_str (st st' : RedisState) (k : String) (v : Bytes)
    (u : String) (b : Bytes) (hr : redisRpush st k v = Except.ok st')
    (hu : lookupDb st u = some (RVal.str b)) :
    lookupDb st' u = some (RVal.str b) := by
  by_cases huk : u = k
  · subst huk
    unfold redisRpush at hr
    rw [hu] at hr
    exact absurd hr (by simp)
  · unfold redisRpush at hr
    cases hk : lookupDb st k with
    | none =>
      rw [hk] at hr
      simp only [Except.ok.injEq] at hr
      rw [← hr, lookupDb_setKeyDb_ne _ _ _ _ huk, hu]
    | some rv =>
      cases rv with
      | str s => rw [hk] at hr; exact absurd hr (by simp)
      | list l =>
        rw [hk] at hr
        simp only [Except.ok.injEq] at hr
        rw [← hr, lookupDb_setKeyDb_ne _ _ _ _ huk, hu]

theorem List.dropWhile_all_false {α : Type} (p : α → Bool) (l : List α)
    (h : ∀ c ∈ l, p c = false) : l.dropWhile p = l := by
  induction l with
  | nil => rfl
  | cons a rest ih =>
    rw [List.dropWhile_cons, h a (by simp)]
    simp

theorem stripWsL_all (l : List Char) (h : ∀ c ∈ l, isPyWs c = false) :
    stripWsL l = l := by
  unfold stripWsL
  rw [List.dropWhile_all_false _ _ h,
    List.dropWhile_all_false _ _ (fun c hc => h c (List.mem_reverse.mp hc)),
    List.reverse_reverse]

theorem digitChar_toNat (m : Nat) (h : m < 10) : (digitChar m).toNat = 48 + m := by
  interval_cases m <;> decide

theorem isDigitChar_digitChar (m : Nat) (h : m < 10) :
    isDigitChar (digitChar m) = true := by
  simp only [isDigitChar, digitChar_toNat m h, Bool.and_eq_true, decide_eq_true_eq]
  omega

theorem isPyWs_of_digit (c : Char) (h : isDigitChar c = true) :
    isPyWs c = false := by
  simp only [isDigitChar, Bool.and_eq_true, decide_eq_true_eq] at h
  simp only [isPyWs, Bool.or_eq_false_iff, Bool.and_eq_false_iff,
    decide_eq_false_iff_not]
  omega

theorem natDigits_all_digit (n : Nat) :
    ∀ c ∈ natDigits n, isDigitChar c = true := by
  induction n using Nat.strong_induction_on with
  | _ n ih =>
    rw [natDigits_eq]
    by_cases h : n < 10
    · simp only [if_pos h, List.mem_singleton]
      intro c hc
      rw [hc]
      exact isDigitChar_digitChar n h
    · simp only [if_neg h]
      intro c hc
      rcases List.mem_append.mp hc with hc1 | hc2
      · exact ih (n / 10) (Nat.div_lt_self (by omega) (by omega)) c hc1
      · rw [List.mem_singleton.mp hc2]
        exact isDigitChar_digitChar _ (Nat.mod_lt _ (by omega))

theorem digitVal_digitChar (m : Nat) (h : m < 10) : digitVal (digitChar m) = m := by
  interval_cases m <;> decide

theorem digitsFold_natDigits (n acc : Nat) :
    digitsFold acc (natDigits n) = acc * 10 ^ (natDigits n).length + n := by
  induction n using Nat.strong_induction_on generalizing acc with
  | _ n ih =>
    rw [natDigits_eq]
    by_cases h : n < 10
    · simp only [if_pos h, digitsFold, List.foldl_cons, List.foldl_nil,
        List.length_singleton, pow_one]
      rw [digitVal_digitChar n h]
    · simp only [if_neg h, digitsFold, List.foldl_append, List.foldl_cons,
        List.foldl_nil, List.length_append, List.length_singleton]
      have hrec := ih (n / 10) (Nat.div_lt_self (by omega) (by omega)) acc
      unfold digitsFold at hrec
      rw [hrec, digitVal_digitChar _ (Nat.mod_lt _ (by omega)), pow_succ]
      have : n % 10 + 10 * (n / 10) = n := Nat.mod_add_div n 10
      ring_nf
      omega

theorem natDigits_head (n : Nat) (h : 1 ≤ n) :
    ∃ c cs, natDigits n = c :: cs ∧ 49 ≤ c.toNat ∧ c.toNat ≤ 57 := by
  induction n using Nat.strong_induction_on with
  | _ n ih =>
    rw [natDigits_eq]
    by_cases h10 : n < 10
    · refine ⟨digitChar n, [], by simp [if_pos h10], ?_, ?_⟩ <;>
        rw [digitChar_toNat n h10] <;> omega
    · obtain ⟨c, cs, heq, h1, h2⟩ :=
        ih (n / 10) (Nat.div_lt_self (by omega) (by omega))
          (by omega : 1 ≤ n / 10)
      exact ⟨c, cs ++ [digitChar (n % 10)], by simp [if_neg h10, heq], h1, h2⟩

theorem natDigits_ne_nil (n : Nat) : natDigits n ≠ [] := by
  rw [natDigits_eq]
  by_cases h : n < 10 <;> simp [h]

theorem redisDigitsGo_all (A : List Char) (acc : Nat)
    (h : ∀ c ∈ A, isDigitChar c = true) :
    redisDigitsGo A acc = some (digitsFold acc A) := by
  induction A generalizing acc with
  | nil => rfl
  | cons c rest ih =>
    rw [redisDigitsGo, h c (by simp)]
    simp only [if_true]
    rw [ih _ (fun d hd => h d (by simp [hd]))]
    rfl

theorem pyDigitsGo_all (A : List Char) (acc : Nat) (seen : Bool) (hne : A ≠ [])
    (h : ∀ c ∈ A, isDigitChar c = true) :
    pyDigitsGo A acc seen = some (digitsFold acc A) := by
  induction A generalizing acc seen with
  | nil => exact absurd rfl hne
  | cons c rest ih =>
    rw [pyDigitsGo, h c (by simp)]
    simp only [if_true]
    cases rest with
    | nil => rfl
    | cons d rest' =>
      rw [ih _ _ (by simp) (fun e he => h e (by simp [he]))]
      rfl

theorem pyIntParse_intRepr (n : Int) : pyIntParse (intRepr n) = some n := by
  cases n with
  | ofNat k =>
    have hdig := natDigits_all_digit k
    have hws : ∀ c ∈ natDigits k, isPyWs c = false :=
      fun c hc => isPyWs_of_digit c (hdig c hc)
    have hdata : (intRepr (Int.ofNat k)).data = natDigits k := rfl
    obtain ⟨c, cs, heq⟩ : ∃ c cs, natDigits k = c :: cs := by
      cases hnd : natDigits k with
      | nil => exact absurd hnd (natDigits_ne_nil k)
      | cons c cs => exact ⟨c, cs, rfl⟩
    have hcd : isDigitChar c = true := hdig c (by rw [heq]; simp)
    have hc43 : ¬c = Char.ofNat 43 := by
      intro e; rw [e] at hcd; exact absurd hcd (by decide)
    have hc45 : ¬c = Char.ofNat 45 := by
      intro e; rw [e] at hcd; exact absurd hcd (by decide)
    rw [pyIntParse, hdata, stripWsL_all _ hws, heq]
    simp only [if_neg hc43, if_neg hc45, ← heq,
      pyDigitsGo_all (natDigits k) 0 false (natDigits_ne_nil k) hdig,
      digitsFold_natDigits]
    simp
  | negSucc m =>
    have hdig := natDigits_all_digit (m + 1)
    have hdata : (intRepr (Int.negSucc m)).data =
        Char.ofNat 45 :: natDigits (m + 1) := rfl
    have hws : ∀ c ∈ Char.ofNat 45 :: natDigits (m + 1), isPyWs c = false := by
      intro c hc
      rcases List.mem_cons.mp hc with h45 | hmem
      · rw [h45]; decide
      · exact isPyWs_of_digit c (hdig c hmem)
    rw [pyIntParse, hdata, stripWsL_all _ hws]
    simp only [if_neg (by decide : ¬Char.ofNat 45 = Char.ofNat 43), if_pos rfl,
      pyDigitsGo_all (natDigits (m + 1)) 0 false (natDigits_ne_nil (m + 1)) hdig,
      digitsFold_natDigits]
    simp [Int.negSucc_eq]

theorem redisParseInt_intRepr (k : Nat) (h1 : 1 ≤ k) (h2 : k ≤ maxI64) :
    redisParseInt (intRepr (k : Int)) = some (k : Int) := by
  have hdig := natDigits_all_digit k
  obtain ⟨c, cs, heq, hlo, hhi⟩ := natDigits_head k h1
  have hdata : (intRepr (k : Int)).data = natDigits k := rfl
  have hne0 : ¬natDigits k = [digitChar 0] := by
    rw [heq]
    intro e
    injection e with e1 _
    rw [e1] at hlo
    exact absurd hlo (by decide)
  have hc45 : ¬c = Char.ofNat 45 := by
    intro e; rw [e] at hlo; exact absurd hlo (by decide)
  have hcond : (49 ≤ c.toNat && c.toNat ≤ 57) = true := by
    simp only [Bool.and_eq_true, decide_eq_true_eq]
    exact ⟨hlo, hhi⟩
  have hk : digitsFold (digitVal c) cs = k := by
    have hf := digitsFold_natDigits k 0
    rw [heq] at hf
    simp only [digitsFold, List.foldl_cons, Nat.zero_mul, Nat.zero_add] at hf ⊢
    exact hf
  have hrest : ∀ d ∈ cs, isDigitChar d = true :=
    fun d hd => hdig d (by rw [heq]; exact List.mem_cons_of_mem c hd)
  rw [redisParseInt, hdata, if_neg hne0, heq]
  simp only [if_neg hc45, redisPosDigits, if_pos hcond,
    redisDigitsGo_all cs (digitVal c) hrest, hk, if_pos h2]

theorem store_redis_ok (st : RedisState) (uuid : String) (v : Value)
    (h' : Handle) (id : String) (tr : List Event)
    (hok : Cache.store (Handle.redis st) uuid v = Except.ok (h', id, tr)) :
    ∃ st1 c st2 st3,
      redisIncr st "Cache.store" = Except.ok (st1, c) ∧
      redisRpush (redisSet st1 uuid (toBytes v)) "Cache.store:inputs"
        (argsStr v) = Except.ok st2 ∧
      redisRpush st2 "Cache.store:outputs" uuid = Except.ok st3 ∧
      h' = Handle.redis st3 ∧ id = uuid ∧
      tr = [Event.incr "Cache.store", Event.set uuid (toBytes v),
            Event.rpush "Cache.store:inputs" (argsStr v),
            Event.rpush "Cache.store:outputs" uuid] := by
  have e1 : ("Cache.store" ++ ":inputs" : String) = "Cache.store:inputs" := rfl
  have e2 : ("Cache.store" ++ ":outputs" : String) = "Cache.store:outputs" := rfl
  simp only [Cache.store, count_calls, call_history, storeBody, e1, e2] at hok
  cases hI : redisIncr st "Cache.store" with
  | error e => rw [hI] at hok; simp at hok
  | ok p =>
    obtain ⟨st1, c⟩ := p
    rw [hI] at hok
    simp only [] at hok
    cases hR1 : redisRpush (redisSet st1 uuid (toBytes v)) "Cache.store:inputs"
        (argsStr v) with
    | error e => rw [hR1] at hok; simp at hok
    | ok st2 =>
      rw [hR1] at hok
      simp only [] at hok
      cases hR2 : redisRpush st2 "Cache.store:outputs" uuid with
      | error e => rw [hR2] at hok; simp at hok
      | ok st3 =>
        rw [hR2] at hok
        simp only [Except.ok.injEq, Prod.mk.injEq] at hok
        obtain ⟨hh, hid, htr⟩ := hok
        exact ⟨st1, c, st2, st3, rfl, hR1, hR2, hh.symm, hid.symm, htr.symm⟩

theorem redisLrangeAll_listRep (st : RedisState) (k : String) (l : List Bytes)
    (h : lookupDb st k = listRep l) : redisLrangeAll st k = Except.ok l := by
  unfold redisLrangeAll
  rw [h]
  unfold listRep
  by_cases hl : l = []
  · subst hl; simp
  · simp [hl]

theorem histList_listRep (st : RedisState) (k : String) (l : List Bytes)
    (h : lookupDb st k = listRep l) : histList st k = l := by
  unfold histList
  rw [h]
  unfold listRep
  by_cases hl : l = []
  · subst hl; simp
  · simp [hl]

theorem replay_redis_run (st : RedisState) (name : String) (c : Int)
    (ins outs : List Bytes)
    (hc : (lookupDb st name = none ∧ c = 0) ∨
      ∃ cb, lookupDb st name = some (RVal.str cb) ∧ pyIntParse cb = some c)
    (hin : redisLrangeAll st (name ++ ":inputs") = Except.ok ins)
    (hout : redisLrangeAll st (name ++ ":outputs") = Except.ok outs) :
    replay (MethodRef.bound name (Handle.redis st)) =
      (replayHeader name c ::
        (List.zip ins outs).map (fun p => replayLine name p.1 p.2), none) := by
  rcases hc with ⟨habs, hc0⟩ | ⟨cb, hcb, hparse⟩
  · subst hc0
    simp [replay, redisExistsB, habs, hin, hout]
  · simp [replay, redisExistsB, hcb, redisGetCmd, hparse, hin, hout]

theorem redisIncr_at_counterRep (st : RedisState) (name : String) (k : Nat)
    (hk : k ≤ maxI64) (hc : lookupDb st name = counterRep k) :
    (k + 1 ≤ maxI64 →
      redisIncr st name =
        Except.ok (redisSet st name (intRepr ((k + 1 : Nat) : Int)),
          ((k + 1 : Nat) : Int))) ∧
    (maxI64 < k + 1 → redisIncr st name = Except.error Err.overflowInt) := by
  unfold counterRep at hc
  by_cases hk0 : k = 0
  · subst hk0
    simp only [if_pos rfl] at hc
    refine ⟨fun _ => ?_, fun habs => absurd habs (by simp [maxI64])⟩
    simp only [redisIncr, hc]
    rfl
  · simp only [if_neg hk0] at hc
    have h1k : 1 ≤ k := Nat.one_le_iff_ne_zero.mpr hk0
    have hparse := redisParseInt_intRepr k h1k hk
    constructor
    · intro hk1
      have hcast : ((k : Int) + 1) = ((k + 1 : Nat) : Int) := by push_cast; ring
      have hle2 : ((k + 1 : Nat) : Int) ≤ (maxI64 : Int) := by exact_mod_cast hk1
      simp only [redisIncr, hc, hparse, hcast, if_pos hle2]
    · intro hgt
      have hnle : ¬((k : Int) + 1 ≤ (maxI64 : Int)) := by
        intro hle
        have : k + 1 ≤ maxI64 := by exact_mod_cast hle
        omega
      simp only [redisIncr, hc, hparse, if_neg hnle]

theorem store_step (st : RedisState) (uuid : String) (v : Value) (k : Nat)
    (ins outs : List Bytes) (hk : k ≤ maxI64)
    (hc : lookupDb st "Cache.store" = counterRep k)
    (hi : lookupDb st "Cache.store:inputs" = listRep ins)
    (ho : lookupDb st "Cache.store:outputs" = listRep outs)
    (hu1 : uuid ≠ "Cache.store") (hu2 : uuid ≠ "Cache.store:inputs")
    (hu3 : uuid ≠ "Cache.store:outputs")
    (h' : Handle) (id : String) (tr : List Event)
    (hok : Cache.store (Handle.redis st) uuid v = Except.ok (h', id, tr)) :
    id = uuid ∧ k + 1 ≤ maxI64 ∧
    ∃ st3, h' = Handle.redis st3 ∧
      lookupDb st3 "Cache.store" = counterRep (k + 1) ∧
      lookupDb st3 "Cache.store:inputs" = listRep (ins ++ [argsStr v]) ∧
      lookupDb st3 "Cache.store:outputs" = listRep (outs ++ [uuid]) := by
  obtain ⟨st1, c, st2, st3, hI, hR1, hR2, hh, hid, -⟩ :=
    store_redis_ok st uuid v h' id tr hok
  have hk1 : k + 1 ≤ maxI64 := by
    by_contra hgt
    rw [(redisIncr_at_counterRep st "Cache.store" k hk hc).2 (by omega)] at hI
    exact absurd hI (by simp)
  rw [(redisIncr_at_counterRep st "Cache.store" k hk hc).1 hk1] at hI
  simp only [Except.ok.injEq, Prod.mk.injEq] at hI
  obtain ⟨hst1, -⟩ := hI
  subst hst1
  have h1c : lookupDb (redisSet st "Cache.store"
      (intRepr ((k + 1 : Nat) : Int))) "Cache.store" = counterRep (k + 1) := by
    unfold redisSet
    rw [lookupDb_setKeyDb_self]
    simp [counterRep]
  have h1i : lookupDb (redisSet st "Cache.store"
      (intRepr ((k + 1 : Nat) : Int))) "Cache.store:inputs" = listRep ins := by
    unfold redisSet
    rw [lookupDb_setKeyDb_ne _ _ _ _ (by decide)]
    exact hi
  have h1o : lookupDb (redisSet st "Cache.store"
      (intRepr ((k + 1 : Nat) : Int))) "Cache.store:outputs" = listRep outs := by
    unfold redisSet
    rw [lookupDb_setKeyDb_ne _ _ _ _ (by decide)]
    exact ho
  set st1 := redisSet st "Cache.store" (intRepr ((k + 1 : Nat) : Int)) with hst1def
  have hSc : lookupDb (redisSet st1 uuid (toBytes v)) "Cache.store" =
      counterRep (k + 1) := by
    unfold redisSet
    rw [lookupDb_setKeyDb_ne _ _ _ _ (Ne.symm hu1)]
    exact h1c
  have hSi : lookupDb (redisSet st1 uuid (toBytes v)) "Cache.store:inputs" =
      listRep ins := by
    unfold redisSet
    rw [lookupDb_setKeyDb_ne _ _ _ _ (Ne.symm hu2)]
    exact h1i
  have hSo : lookupDb (redisSet st1 uuid (toBytes v)) "Cache.store:outputs" =
      listRep outs := by
    unfold redisSet
    rw [lookupDb_setKeyDb_ne _ _ _ _ (Ne.symm hu3)]
    exact h1o
  rw [redisRpush_listRep _ _ _ _ hSi] at hR1
  simp only [Except.ok.injEq] at hR1
  subst hR1
  set stS := redisSet st1 uuid (toBytes v) with hstSdef
  have h2i : lookupDb (setKeyDb stS "Cache.store:inputs"
      (RVal.list (ins ++ [argsStr v]))) "Cache.store:inputs" =
      listRep (ins ++ [argsStr v]) := by
    rw [lookupDb_setKeyDb_self]
    simp [listRep]
  have h2c : lookupDb (setKeyDb stS "Cache.store:inputs"
      (RVal.list (ins ++ [argsStr v]))) "Cache.store" = counterRep (k + 1) := by
    rw [lookupDb_setKeyDb_ne _ _ _ _ (by decide)]
    exact hSc
  have h2o : lookupDb (setKeyDb stS "Cache.store:inputs"
      (RVal.list (ins ++ [argsStr v]))) "Cache.store:outputs" = listRep outs := by
    rw [lookupDb_setKeyDb_ne _ _ _ _ (by decide)]
    exact hSo
  rw [redisRpush_listRep _ _ _ _ h2o] at hR2
  simp only [Except.ok.injEq] at hR2
  subst hR2
  refine ⟨hid, hk1, _, hh, ?_, ?_, ?_⟩
  · rw [lookupDb_setKeyDb_ne _ _ _ _ (by decide)]
    exact h2c
  · rw [lookupDb_setKeyDb_ne _ _ _ _ (by decide)]
    exact h2i
  · rw [lookupDb_setKeyDb_self]
    simp [listRep]

theorem storeN_invariant (L : List (String × Value)) (st : RedisState) (k : Nat)
    (ins outs : List Bytes) (hk : k ≤ maxI64)
    (hc : lookupDb st "Cache.store" = counterRep k)
    (hi : lookupDb st "Cache.store:inputs" = listRep ins)
    (ho : lookupDb st "Cache.store:outputs" = listRep outs)
    (hfresh : ∀ p ∈ L, p.1 ≠ "Cache.store" ∧ p.1 ≠ "Cache.store:inputs" ∧
      p.1 ≠ "Cache.store:outputs")
    (hFin : Handle) (ids : List String)
    (hok : Cache.storeN (Handle.redis st) L = Except.ok (hFin, ids)) :
    ids = L.map Prod.fst ∧
    ∃ st', hFin = Handle.redis st' ∧
      lookupDb st' "Cache.store" = counterRep (k + L.length) ∧
      lookupDb st' "Cache.store:inputs" =
        listRep (ins ++ L.map (fun p => argsStr p.2)) ∧
      lookupDb st' "Cache.store:outputs" = listRep (outs ++ L.map Prod.fst) := by
  induction L generalizing st k ins outs hFin ids with
  | nil =>
    simp only [Cache.storeN, Except.ok.injEq, Prod.mk.injEq] at hok
    obtain ⟨hh, hids⟩ := hok
    exact ⟨hids.symm, st, hh.symm, by simpa using hc, by simpa using hi,
      by simpa using ho⟩
  | cons p rest ih =>
    obtain ⟨u, v⟩ := p
    simp only [Cache.storeN] at hok
    cases hS : Cache.store (Handle.redis st) u v with
    | error e => rw [hS] at hok; simp at hok
    | ok q =>
      obtain ⟨h1, id1, tr1⟩ := q
      rw [hS] at hok
      simp only [] at hok
      obtain ⟨hu1, hu2, hu3⟩ := hfresh (u, v) (by simp)
      obtain ⟨hid, hk1, st3, hh1, h3c, h3i, h3o⟩ :=
        store_step st u v k ins outs hk hc hi ho hu1 hu2 hu3 h1 id1 tr1 hS
      subst hh1
      cases hN : Cache.storeN (Handle.redis st3) rest with
      | error e => rw [hN] at hok; simp at hok
      | ok r =>
        obtain ⟨h2, ids2⟩ := r
        rw [hN] at hok
        simp only [Except.ok.injEq, Prod.mk.injEq] at hok
        obtain ⟨hh2, hids⟩ := hok
        obtain ⟨hids2, st', hh', hc', hi', ho'⟩ :=
          ih st3 (k + 1) (ins ++ [argsStr v]) (outs ++ [u]) hk1 h3c h3i h3o
            (fun q hq => hfresh q (by simp [hq])) h2 ids2 hN
        refine ⟨?_, st', by rw [← hh2]; exact hh', ?_, ?_, ?_⟩
        · rw [← hids, hids2, hid]
          simp
        · have : k + 1 + rest.length = k + ((u, v) :: rest).length := by
            simp; omega
          rw [← this]
          exact hc'
        · simpa [List.append_assoc] using hi'
        · simpa [List.append_assoc] using ho'

theorem appendStrNe (s t : String) (ht : t.data ≠ []) : ¬s ++ t = s := by
  intro e
  have hd := congrArg String.data e
  rw [String.data_append] at hd
  have hlen := congrArg List.length hd
  rw [List.length_append] at hlen
  have h0 : t.data.length = 0 := by omega
  exact ht (List.length_eq_zero.mp h0)

theorem appendStrNeSuffix (s t u : String) (h : t.data ≠ u.data) :
    ¬s ++ t = s ++ u := by
  intro e
  apply h
  have hd := congrArg String.data e
  rw [String.data_append, String.data_append] at hd
  exact List.append_cancel_left hd

/-- C1: for every scalar value `v` (text, binary, integer, or real), a
successful `store(v)` followed by `get` on the returned identifier yields the
stored value back up to the store's byte coercion: a raw `get` returns the
byte form of `v`, `get_str` returns it as text (an integer thus comes back as
its decimal text form), and `get_int` on a stored integer returns that
integer. -/
theorem store_get_roundtrip (st : RedisState) (uuid : String) (v : Value)
    (h' : Handle) (id : String) (tr : List Event)
    (hok : Cache.store (Handle.redis st) uuid v = Except.ok (h', id, tr)) :
    Cache.get h' id none = Except.ok (PyVal.pbytes (toBytes v)) ∧
    Cache.get_str h' id = Except.ok (PyVal.pstr (toBytes v)) ∧
    ∀ n : Int, v = Value.vint n →
      Cache.get_int h' id = Except.ok (PyVal.pint n) := by
  obtain ⟨st1, c, st2, st3, hI, hR1, hR2, hh, hid, -⟩ :=
    store_redis_ok st uuid v h' id tr hok
  subst hh
  subst hid
  have hset : lookupDb (redisSet st1 id (toBytes v)) id =
      some (RVal.str (toBytes v)) := by
    unfold redisSet
    exact lookupDb_setKeyDb_self st1 id (RVal.str (toBytes v))
  have h2 := redisRpush_preserves_str _ _ _ _ _ _ hR1 hset
  have h3 := redisRpush_preserves_str _ _ _ _ _ _ hR2 h2
  refine ⟨?_, ?_, ?_⟩
  · simp [Cache.get, redisGetCmd, h3]
  · simp [Cache.get_str, Cache.get, redisGetCmd, h3, decodeUtf8Fn]
  · intro n hn
    subst hn
    simp [Cache.get_int, Cache.get, redisGetCmd, h3, toIntFn, toBytes,
      pyIntParse_intRepr n]

/-- Witness for `store_get_roundtrip`: storing the integer 123 under the
fresh identifier `"id1"` in an empty store, then reading it back. -/
theorem store_get_roundtrip_witness :
    Cache.get_int (Handle.redis [("Cache.store", RVal.str "1"),
      ("id1", RVal.str "123"), ("Cache.store:inputs", RVal.list ["(123,)"]),
      ("Cache.store:outputs", RVal.list ["id1"])]) "id1" =
      Except.ok (PyVal.pint 123) :=
  (store_get_roundtrip [] "id1" (Value.vint 123)
    (Handle.redis [("Cache.store", RVal.str "1"), ("id1", RVal.str "123"),
      ("Cache.store:inputs", RVal.list ["(123,)"]),
      ("Cache.store:outputs", RVal.list ["id1"])]) "id1"
    [Event.incr "Cache.store", Event.set "id1" "123",
     Event.rpush "Cache.store:inputs" "(123,)",
     Event.rpush "Cache.store:outputs" "id1"] (by rfl)).2.2 123 rfl

/-- C2 counterexample: on an empty store, `store("foo")` issues its Redis
commands in the order INCR, SET, RPUSH inputs, RPUSH outputs — not in the
order the claim states (INCR, RPUSH inputs, SET, RPUSH outputs), so the
claim's (b)-before-(c) ordering is false on the code. -/
theorem store_spec_order_refuted :
    Cache.store (Handle.redis []) "id1" (Value.vstr "foo") =
      Except.ok (Handle.redis [("Cache.store", RVal.str "1"),
          ("id1", RVal.str "foo"),
          ("Cache.store:inputs", RVal.list ["('foo',)"]),
          ("Cache.store:outputs", RVal.list ["id1"])], "id1",
        [Event.incr "Cache.store", Event.set "id1" "foo",
         Event.rpush "Cache.store:inputs" "('foo',)",
         Event.rpush "Cache.store:outputs" "id1"]) ∧
    [Event.incr "Cache.store", Event.set "id1" "foo",
     Event.rpush "Cache.store:inputs" "('foo',)",
     Event.rpush "Cache.store:outputs" "id1"] ≠
      specOrderTrace "id1" (Value.vstr "foo") := by
  exact ⟨by rfl, by decide⟩

/-- C2 (amended): every successful `store(value)` call performs its side
effects in exactly this order — (a) increment the call counter keyed by the
operation's qualified name by 1; (b) execute the underlying set of the value
under the freshly generated identifier; (c) append the positional arguments,
serialized as their display form, to the input history; (d) append the
resulting identifier to the output history — and returns that identifier. -/
theorem store_effect_order (st : RedisState) (uuid : String) (v : Value)
    (h' : Handle) (id : String) (tr : List Event)
    (hok : Cache.store (Handle.redis st) uuid v = Except.ok (h', id, tr)) :
    id = uuid ∧
    tr = [Event.incr "Cache.store", Event.set uuid (toBytes v),
          Event.rpush "Cache.store:inputs" (argsStr v),
          Event.rpush "Cache.store:outputs" uuid] := by
  obtain ⟨st1, c, st2, st3, hI, hR1, hR2, hh, hid, htr⟩ :=
    store_redis_ok st uuid v h' id tr hok
  exact ⟨hid, htr⟩

/-- Witness for `store_effect_order`: the trace of `store("foo")` under the
identifier `"id1"` on an empty store. -/
theorem store_effect_order_witness :
    ("id1" : String) = "id1" ∧
    [Event.incr "Cache.store", Event.set "id1" "foo",
     Event.rpush "Cache.store:inputs" "('foo',)",
     Event.rpush "Cache.store:outputs" "id1"] =
      [Event.incr "Cache.store", Event.set "id1" (toBytes (Value.vstr "foo")),
       Event.rpush "Cache.store:inputs" (argsStr (Value.vstr "foo")),
       Event.rpush "Cache.store:outputs" "id1"] :=
  store_effect_order [] "id1" (Value.vstr "foo")
    (Handle.redis [("Cache.store", RVal.str "1"), ("id1", RVal.str "foo"),
      ("Cache.store:inputs", RVal.list ["('foo',)"]),
      ("Cache.store:outputs", RVal.list ["id1"])]) "id1"
    [Event.incr "Cache.store", Event.set "id1" "foo",
     Event.rpush "Cache.store:inputs" "('foo',)",
     Event.rpush "Cache.store:outputs" "id1"] (by rfl)

/-- C9: a `store` call on a `Cache` whose `_redis` attribute is not a `Redis`
instance (but still answers the store commands) skips both instrumentation
steps — the trace holds only the underlying SET, and the counter key and both
history keys are unchanged — while the underlying operation still runs and
its result (the generated identifier) is returned. -/
theorem store_mock_skips_instrumentation (st : RedisState) (uuid : String)
    (v : Value) (h1 : uuid ≠ "Cache.store") (h2 : uuid ≠ "Cache.store:inputs")
    (h3 : uuid ≠ "Cache.store:outputs") :
    Cache.store (Handle.mock st) uuid v =
      Except.ok (Handle.mock (redisSet st uuid (toBytes v)), uuid,
        [Event.set uuid (toBytes v)]) ∧
    lookupDb (redisSet st uuid (toBytes v)) "Cache.store" =
      lookupDb st "Cache.store" ∧
    lookupDb (redisSet st uuid (toBytes v)) "Cache.store:inputs" =
      lookupDb st "Cache.store:inputs" ∧
    lookupDb (redisSet st uuid (toBytes v)) "Cache.store:outputs" =
      lookupDb st "Cache.store:outputs" := by
  refine ⟨rfl, ?_, ?_, ?_⟩
  · exact lookupDb_setKeyDb_ne st uuid "Cache.store" _ (Ne.symm h1)
  · exact lookupDb_setKeyDb_ne st uuid "Cache.store:inputs" _ (Ne.symm h2)
  · exact lookupDb_setKeyDb_ne st uuid "Cache.store:outputs" _ (Ne.symm h3)

/-- Witness for `store_mock_skips_instrumentation`: a mock-handle store on a
state holding a counter and histories leaves them untouched. -/
theorem store_mock_skips_instrumentation_witness :
    Cache.store (Handle.mock [("Cache.store", RVal.str "7")]) "u1"
        (Value.vstr "x") =
      Except.ok (Handle.mock (redisSet [("Cache.store", RVal.str "7")] "u1"
        (toBytes (Value.vstr "x"))), "u1",
        [Event.set "u1" (toBytes (Value.vstr "x"))]) ∧
    lookupDb (redisSet [("Cache.store", RVal.str "7")] "u1"
        (toBytes (Value.vstr "x"))) "Cache.store" =
      lookupDb [("Cache.store", RVal.str "7")] "Cache.store" ∧
    lookupDb (redisSet [("Cache.store", RVal.str "7")] "u1"
        (toBytes (Value.vstr "x"))) "Cache.store:inputs" =
      lookupDb [("Cache.store", RVal.str "7")] "Cache.store:inputs" ∧
    lookupDb (redisSet [("Cache.store", RVal.str "7")] "u1"
        (toBytes (Value.vstr "x"))) "Cache.store:outputs" =
      lookupDb [("Cache.store", RVal.str "7")] "Cache.store:outputs" :=
  store_mock_skips_instrumentation [("Cache.store", RVal.str "7")] "u1"
    (Value.vstr "x") (by decide) (by decide) (by decide)

/-- C3: starting from a freshly initialized `Cache`, N sequential successful
`store` calls (whose generated identifiers avoid the three instrumentation
keys) leave the call counter equal to N, both history lists of length N in
call order, with the i-th recorded input and the i-th recorded output coming
from the same invocation. -/
theorem storeN_counter_and_history (st0 : RedisState)
    (L : List (String × Value))
    (hfresh : ∀ p ∈ L, p.1 ≠ "Cache.store" ∧ p.1 ≠ "Cache.store:inputs" ∧
      p.1 ≠ "Cache.store:outputs")
    (hFin : Handle) (ids : List String)
    (hok : Cache.storeN (Cache.initState st0) L = Except.ok (hFin, ids)) :
    ids = L.map Prod.fst ∧
    ∃ st', hFin = Handle.redis st' ∧
      counterValue st' "Cache.store" = (L.length : Int) ∧
      histList st' "Cache.store:inputs" = L.map (fun p => argsStr p.2) ∧
      histList st' "Cache.store:outputs" = L.map Prod.fst ∧
      (histList st' "Cache.store:inputs").length = L.length ∧
      (histList st' "Cache.store:outputs").length = L.length ∧
      ∀ i : Nat, (histList st' "Cache.store:inputs")[i]? =
          (L[i]?).map (fun p => argsStr p.2) ∧
        (histList st' "Cache.store:outputs")[i]? = (L[i]?).map Prod.fst := by
  have h0c : lookupDb (redisFlushdb st0) "Cache.store" = counterRep 0 := by
    simp [redisFlushdb, lookupDb, counterRep]
  have h0i : lookupDb (redisFlushdb st0) "Cache.store:inputs" =
      listRep [] := by
    simp [redisFlushdb, lookupDb, listRep]
  have h0o : lookupDb (redisFlushdb st0) "Cache.store:outputs" =
      listRep [] := by
    simp [redisFlushdb, lookupDb, listRep]
  obtain ⟨hids, st', hh, hc', hi', ho'⟩ :=
    storeN_invariant L (redisFlushdb st0) 0 [] [] (by simp [maxI64]) h0c h0i
      h0o hfresh hFin ids hok
  simp only [Nat.zero_add, List.nil_append] at hc' hi' ho'
  have hhi := histList_listRep st' "Cache.store:inputs" _ hi'
  have hho := histList_listRep st' "Cache.store:outputs" _ ho'
  have hcv : counterValue st' "Cache.store" = (L.length : Int) := by
    unfold counterValue
    rw [hc']
    unfold counterRep
    by_cases h0 : L.length = 0
    · simp [h0]
    · rw [if_neg h0]
      simp [pyIntParse_intRepr]
  refine ⟨hids, st', hh, hcv, hhi, hho, ?_, ?_, ?_⟩
  · rw [hhi]; simp
  · rw [hho]; simp
  · intro i
    rw [hhi, hho]
    constructor <;> simp [List.getElem?_map]

/-- Witness for `storeN_counter_and_history`: two stores from a fresh cache
return the generated identifiers in order. -/
theorem storeN_counter_and_history_witness :
    (["u1", "u2"] : List String) =
      [("u1", Value.vstr "foo"), ("u2", Value.vint 123)].map Prod.fst :=
  (storeN_counter_and_history [("x", RVal.str "y")]
    [("u1", Value.vstr "foo"), ("u2", Value.vint 123)] (by decide)
    (Handle.redis [("Cache.store", RVal.str "2"), ("u1", RVal.str "foo"),
      ("Cache.store:inputs", RVal.list ["('foo',)", "(123,)"]),
      ("Cache.store:outputs", RVal.list ["u1", "u2"]),
      ("u2", RVal.str "123")]) ["u1", "u2"] (by rfl)).1

/-- C4: `get(key)` with no conversion returns the raw stored bytes unchanged
and `pnone` when the key is absent; with a conversion the conversion is
applied to the fetched value, including in the absent case, where the typed
conversions that do not handle absence fail. -/
theorem get_raw_and_convert (st : RedisState) (key : String) :
    (∀ b, lookupDb st key = some (RVal.str b) →
      Cache.get (Handle.redis st) key none = Except.ok (PyVal.pbytes b) ∧
      ∀ f, Cache.get (Handle.redis st) key (some f) = f (PyVal.pbytes b)) ∧
    (lookupDb st key = none →
      Cache.get (Handle.redis st) key none = Except.ok PyVal.pnone ∧
      (∀ f, Cache.get (Handle.redis st) key (some f) = f PyVal.pnone) ∧
      Cache.get_str (Handle.redis st) key = Except.error Err.attrError ∧
      Cache.get_int (Handle.redis st) key = Except.error Err.typeError) := by
  constructor
  · intro b hb
    refine ⟨?_, fun f => ?_⟩ <;> simp [Cache.get, redisGetCmd, hb]
  · intro hn
    refine ⟨?_, fun f => ?_, ?_, ?_⟩ <;>
      simp [Cache.get, Cache.get_str, Cache.get_int, redisGetCmd, hn,
        decodeUtf8Fn, toIntFn]

/-- Witness for `get_raw_and_convert`: a present key returns its bytes, an
absent key returns the absent sentinel. -/
theorem get_raw_and_convert_witness :
    Cache.get (Handle.redis [("k", RVal.str "val")]) "k" none =
      Except.ok (PyVal.pbytes "val") ∧
    Cache.get (Handle.redis [("k", RVal.str "val")]) "missing" none =
      Except.ok PyVal.pnone :=
  ⟨((get_raw_and_convert [("k", RVal.str "val")] "k").1 "val" (by rfl)).1,
   ((get_raw_and_convert [("k", RVal.str "val")] "missing").2 (by rfl)).1⟩

/-- C5: `get_int(key)` on stored bytes returns the parsed base-10 integer
when the bytes parse, and fails with the FormatError (`int()`'s ValueError)
when they do not. -/
theorem get_int_parse (st : RedisState) (key : String) (b : Bytes)
    (h : lookupDb st key = some (RVal.str b)) :
    (pyIntParse b = none →
      Cache.get_int (Handle.redis st) key = Except.error Err.formatError) ∧
    ∀ n : Int, pyIntParse b = some n →
      Cache.get_int (Handle.redis st) key = Except.ok (PyVal.pint n) := by
  constructor
  · intro hp
    simp [Cache.get_int, Cache.get, redisGetCmd, h, toIntFn, hp]
  · intro n hp
    simp [Cache.get_int, Cache.get, redisGetCmd, h, toIntFn, hp]

/-- Witness for `get_int_parse`: `"12x"` fails with FormatError, `"42"`
parses. -/
theorem get_int_parse_witness :
    Cache.get_int (Handle.redis [("k", RVal.str "12x"),
      ("m", RVal.str "42")]) "k" = Except.error Err.formatError ∧
    Cache.get_int (Handle.redis [("k", RVal.str "12x"),
      ("m", RVal.str "42")]) "m" = Except.ok (PyVal.pint 42) :=
  ⟨(get_int_parse [("k", RVal.str "12x"), ("m", RVal.str "42")] "k" "12x"
      (by rfl)).1 (by decide),
   (get_int_parse [("k", RVal.str "12x"), ("m", RVal.str "42")] "m" "42"
      (by rfl)).2 42 (by decide)⟩

/-- C6: `replay` is a silent no-op — it prints nothing and raises nothing —
when its argument is `None`, an unbound function, or a bound method whose
store handle is not a `Redis` instance (including a missing `_redis`
attribute); being read-only, it leaves all state unchanged by construction. -/
theorem replay_invalid_noop :
    replay MethodRef.noneRef = ([], none) ∧
    (∀ n, replay (MethodRef.plainFn n) = ([], none)) ∧
    (∀ n st, replay (MethodRef.bound n (Handle.mock st)) = ([], none)) ∧
    (∀ n, replay (MethodRef.bound n Handle.noneH) = ([], none)) :=
  ⟨rfl, fun _ => rfl, fun _ _ => rfl, fun _ => rfl⟩

/-- C7: on a valid bound method, `replay` prints the header
`"<name> was called <count> times:"` followed by exactly
`min m n` history lines pairing the i-th input with the i-th output, raising
no error when the history lengths differ; with empty histories and an absent
counter it prints the header with count 0 and nothing else. -/
theorem replay_prints_history (st : RedisState) (name : String) (c : Int)
    (ins outs : List Bytes)
    (hc : (lookupDb st name = none ∧ c = 0) ∨
      ∃ cb, lookupDb st name = some (RVal.str cb) ∧ pyIntParse cb = some c)
    (hi : lookupDb st (name ++ ":inputs") = listRep ins)
    (ho : lookupDb st (name ++ ":outputs") = listRep outs) :
    replay (MethodRef.bound name (Handle.redis st)) =
      (replayHeader name c ::
        (List.zip ins outs).map (fun p => replayLine name p.1 p.2), none) ∧
    ((List.zip ins outs).map (fun p => replayLine name p.1 p.2)).length =
      min ins.length outs.length := by
  refine ⟨replay_redis_run st name c ins outs hc
    (redisLrangeAll_listRep st (name ++ ":inputs") ins hi)
    (redisLrangeAll_listRep st (name ++ ":outputs") outs ho), ?_⟩
  rw [List.length_map, List.length_zip]

/-- Witness for `replay_prints_history`: three recorded inputs but a single
recorded output produce exactly one history line after the header. -/
theorem replay_prints_history_witness :
    replay (MethodRef.bound "Cache.store" (Handle.redis
      [("Cache.store", RVal.str "2"),
       ("Cache.store:inputs", RVal.list ["('foo',)", "(123,)", "('x',)"]),
       ("Cache.store:outputs", RVal.list ["id1"])])) =
      (replayHeader "Cache.store" 2 ::
        (List.zip ["('foo',)", "(123,)", "('x',)"] ["id1"]).map
          (fun p => replayLine "Cache.store" p.1 p.2), none) ∧
    ((List.zip ["('foo',)", "(123,)", "('x',)"] ["id1"]).map
        (fun p => replayLine "Cache.store" p.1 p.2)).length = min 3 1 :=
  replay_prints_history
    [("Cache.store", RVal.str "2"),
     ("Cache.store:inputs", RVal.list ["('foo',)", "(123,)", "('x',)"]),
     ("Cache.store:outputs", RVal.list ["id1"])] "Cache.store" 2
    ["('foo',)", "(123,)", "('x',)"] ["id1"]
    (Or.inr ⟨"2", rfl, by decide⟩) (by rfl) (by rfl)

/-- C8: initializing a `Cache` connects to the store and synchronously
flushes it, so immediately afterwards every key is absent; in particular
every call counter reads 0 and every history list is empty. -/
theorem init_flushes_all (st0 : RedisState) :
    Cache.initState st0 = Handle.redis (redisFlushdb st0) ∧
    (∀ k, lookupDb (redisFlushdb st0) k = none) ∧
    (∀ k, counterValue (redisFlushdb st0) k = 0) ∧
    (∀ k, histList (redisFlushdb st0) k = []) :=
  ⟨rfl, fun _ => rfl, fun _ => rfl, fun _ => rfl⟩

/-- C10: the count in `replay`'s header is read from the counter key alone
(0 when absent) and never derived from the histories: with any history
contents the header shows the parsed counter bytes, and on a state whose
counter reads 5 with no recorded history, the header announces 5 calls while
zero history lines follow. -/
theorem replay_count_from_counter_only :
    (∀ (name cb : String) (c : Int) (ins outs : List Bytes),
      pyIntParse cb = some c →
      (replay (MethodRef.bound name (Handle.redis
        [(name, RVal.str cb), (name ++ ":inputs", RVal.list ins),
         (name ++ ":outputs", RVal.list outs)]))).1.head? =
        some (replayHeader name c)) ∧
    replay (MethodRef.bound "Cache.store"
        (Handle.redis [("Cache.store", RVal.str "5")])) =
      (["Cache.store was called 5 times:"], none) ∧
    (5 : Int) ≠ 0 := by
  refine ⟨?_, by rfl, by decide⟩
  intro name cb c ins outs hp
  have hne1 : ¬name = name ++ ":inputs" :=
    fun e => appendStrNe name ":inputs" (by decide) (Eq.symm e)
  have hne2 : ¬name = name ++ ":outputs" :=
    fun e => appendStrNe name ":outputs" (by decide) (Eq.symm e)
  have hne3 : ¬name ++ ":inputs" = name ++ ":outputs" :=
    appendStrNeSuffix name ":inputs" ":outputs" (by decide)
  have h1 : lookupDb [(name, RVal.str cb), (name ++ ":inputs", RVal.list ins),
      (name ++ ":outputs", RVal.list outs)] name = some (RVal.str cb) := by
    simp [lookupDb]
  have h2 : redisLrangeAll [(name, RVal.str cb),
      (name ++ ":inputs", RVal.list ins),
      (name ++ ":outputs", RVal.list outs)] (name ++ ":inputs") =
      Except.ok ins := by
    simp [redisLrangeAll, lookupDb, hne1]
  have h3 : redisLrangeAll [(name, RVal.str cb),
      (name ++ ":inputs", RVal.list ins),
      (name ++ ":outputs", RVal.list outs)] (name ++ ":outputs") =
      Except.ok outs := by
    simp [redisLrangeAll, lookupDb, hne2, hne3]
  rw [replay_redis_run _ name c ins outs (Or.inr ⟨cb, h1, hp⟩) h2 h3]
  rfl

/-- Witness for `replay_count_from_counter_only`: a counter reading 7 gives a
header announcing 7 calls regardless of the history contents. -/
theorem replay_count_from_counter_only_witness :
    (replay (MethodRef.bound "Cache.store" (Handle.redis
      [("Cache.store", RVal.str "7"),
       ("Cache.store" ++ ":inputs", RVal.list ["('a',)"]),
       ("Cache.store" ++ ":outputs", RVal.list [])]))).1.head? =
      some (replayHeader "Cache.store" 7) :=
  replay_count_from_counter_only.1 "Cache.store" "7" 7 ["('a',)"] []
    (by decide)
